import Mathlib

/-!
Verification of the Fourier-domain physics engine of `pytom/simulation/microscope.py`:
frequency-grid construction (`fourier_array`), the sinc-squared detector model
(`sinc_square`, `fit_sinc_square`, `create_detector_response`), the transmission
function, and the CTF family (`create_ctf`, `create_simple_complex_ctf`,
`create_complex_ctf`).

Modelling conventions.
* NumPy float arrays are embedded as total functions `ℕ → ... → ℝ` (or `ℂ`) together
  with an explicit size; real arithmetic replaces IEEE floats.  Division by zero
  follows Lean's total-division convention `x / 0 = 0`; wherever a claim hinges on a
  zero denominator (the sinc singularity) this is noted next to the theorem, since
  NumPy produces `nan` there.
* The external collaborators used by the source are passed in as explicit inputs,
  exactly as the specification mandates: the electron wavelength
  `physics.wavelength_eV2m(voltage)` becomes a parameter `lmbd`, the physical
  constants `me, el, c, h` become parameters, the fitted parameters produced by
  `scipy.optimize.curve_fit` become a parameter `popt`, and
  `scipy.ndimage.gaussian_filter` becomes a function parameter `blur` (its kernel
  is normalized to total weight 1, so it leaves a constant array unchanged; the
  concrete instantiations below only ever apply it to the all-ones array).
* Python `assert` failures are embedded as `Option.none`.
-/

open Real

noncomputable section

/-- One axis of the frequency grid: `np.arange(-nyquist, nyquist, 2*nyquist/size)`,
element number `m` (microscope.py line 22). -/
def dval (size : ℕ) (nyquist : ℝ) (m : ℕ) : ℝ :=
  -nyquist + m * (2 * nyquist / size)

/-- The 2-d frequency-magnitude grid built by `fourier_array` from
`np.meshgrid(d, d)` (NumPy `xy` indexing: `grids[0][i][j] = d[j]`,
`grids[1][i][j] = d[i]`), followed by `sqrt` of the sum of squares. -/
def mesh2 (size : ℕ) (nyquist : ℝ) (i j : ℕ) : ℝ :=
  Real.sqrt (dval size nyquist j ^ 2 + dval size nyquist i ^ 2)

/-- The 3-d frequency-magnitude grid built by `fourier_array` from
`np.meshgrid(d, d, d)`. -/
def mesh3 (size : ℕ) (nyquist : ℝ) (i j l : ℕ) : ℝ :=
  Real.sqrt (dval size nyquist j ^ 2 + dval size nyquist i ^ 2 + dval size nyquist l ^ 2)

/-- A real-valued square NumPy array of 2 or 3 dimensions, as returned by
`fourier_array` and `create_ctf`. -/
inductive NdArray where
  | dim2 (size : ℕ) (entry : ℕ → ℕ → ℝ)
  | dim3 (size : ℕ) (entry : ℕ → ℕ → ℕ → ℝ)

/-- `numpy.ndarray.shape` of an `NdArray`. -/
def NdArray.shape : NdArray → List ℕ
  | dim2 n _ => [n, n]
  | dim3 n _ => [n, n, n]

/-- Elementwise application of a scalar function, as NumPy broadcasting does. -/
def NdArray.emap (f : ℝ → ℝ) : NdArray → NdArray
  | dim2 n g => dim2 n (fun i j => f (g i j))
  | dim3 n g => dim3 n (fun i j l => f (g i j l))

/-- `fourier_array(shape, nyquist)` (microscope.py lines 7-33).  The two `assert`
statements (`len(set(shape)) == 1`, `len(shape) <= 3`) are embedded as the guard;
a failing assertion yields `none`.  `len(shape) == 2` selects the 2-d meshgrid,
every other accepted length takes the 3-d branch, exactly as in the source. -/
def fourier_array (shape : List ℕ) (nyquist : ℝ) : Option NdArray :=
  match shape with
  | [] => none
  | size :: rest =>
    if (∀ d ∈ rest, d = size) ∧ rest.length + 1 ≤ 3 then
      some (if rest.length + 1 = 2 then NdArray.dim2 size (mesh2 size nyquist)
            else NdArray.dim3 size (mesh3 size nyquist))
    else none

/-- Element `(i, j)` of an optional 2-d array (0 when absent, only used in-range). -/
def atIdx2 (a : Option NdArray) (i j : ℕ) : ℝ :=
  match a with
  | some (NdArray.dim2 _ f) => f i j
  | _ => 0

/-- Element `(i, j, l)` of an optional 3-d array. -/
def atIdx3 (a : Option NdArray) (i j l : ℕ) : ℝ :=
  match a with
  | some (NdArray.dim3 _ f) => f i j l
  | _ => 0

/-- The reflection used by the symmetry claim, read literally: mirror an axis index
about the centre `(n-1)/2` of the axis `0, ..., n-1`, that is `i ↦ n - 1 - i`. -/
def reflect_center (n i : ℕ) : ℕ := n - 1 - i

/-- The reflection that actually leaves the grid invariant: mirror about the
zero-frequency sample at index `n / 2`, with wrap-around, `i ↦ (n - i) % n`. -/
def reflect_mod (n i : ℕ) : ℕ := (n - i) % n

/-- `sinc_square(x, p1, p2, p3, p4)` (microscope.py lines 36-37), written with the
source's literal division `sin(pi*(x-p2)*p3) / (pi*(x-p2)*p3)`.  At `x = p2` NumPy
evaluates `0/0` to `nan`; real-number total division renders that sample as `0`. -/
def sinc_square (x p1 p2 p3 p4 : ℝ) : ℝ :=
  p1 * (Real.sin (Real.pi * (x - p2) * p3) / (Real.pi * (x - p2) * p3)) ^ 2 + p4

/-- The value `fit_sinc_square` actually hands back together with the diagnostic it
only prints (`print(f'chi-square value ...')`, microscope.py line 55).  The print
side effect is modelled as an explicit output channel. -/
structure FitResult where
  ret : ℝ × ℝ × ℝ × ℝ
  printed_chi_square : ℝ

/-- The residual sum of squares of the fit, written from the spec's words: the sum
over the sample pairs of the squared difference between measured response and the
fitted sinc-squared model. -/
def residual_sum_of_squares (popt : ℝ × ℝ × ℝ × ℝ) (xdata ydata : List ℝ) : ℝ :=
  ((xdata.zip ydata).map
    (fun p => (p.2 - sinc_square p.1 popt.1 popt.2.1 popt.2.2.1 popt.2.2.2) ^ 2)).sum

/-- `fit_sinc_square(xdata, ydata)` (microscope.py lines 40-70).  The
`scipy.optimize.curve_fit` call is the external solver; its output `popt` is an
input here.  The function unpacks the four parameters, computes
`residuals = ydata - sinc_square(xdata, ...)` and `fres = sum(residuals**2)`,
prints `fres`, and returns only `(p1, p2, p3, p4)`. -/
def fit_sinc_square (popt : ℝ × ℝ × ℝ × ℝ) (xdata ydata : List ℝ) : FitResult :=
  let p1 := popt.1
  let p2 := popt.2.1
  let p3 := popt.2.2.1
  let p4 := popt.2.2.2
  let residuals := List.zipWith (fun y x => y - sinc_square x p1 p2 p3 p4) ydata xdata
  let fres := (residuals.map (fun r => r ^ 2)).sum
  { ret := (p1, p2, p3, p4), printed_chi_square := fres }

/-- A 2-d square array with its side length, the result type of
`create_detector_response` (the side may have been shrunk by the crop). -/
structure CroppedArr where
  size : ℕ
  entry : ℕ → ℕ → ℝ

/-- `create_detector_response(detector, response_function, image_size, ...)`
(microscope.py lines 121-170).  Loading the CSV curve and fitting it are the
external stages (`read_detector_csv`, `curve_fit`); the fitted parameters
`p1, ..., p4` are inputs here.  The response is the fitted model evaluated on the
`image_size * binning` grid at Nyquist 1, and for `binning > 1` it is cropped by
`cut = sampling_image_size//2 - image_size//2` pixels from each edge
(`detector_response[cut:-cut, cut:-cut]`). -/
def create_detector_response (p1 p2 p3 p4 : ℝ) (image_size binning : ℕ) : CroppedArr :=
  let sampling_image_size := image_size * binning
  let r := mesh2 sampling_image_size 1
  let detector_response := fun i j => sinc_square (r i j) p1 p2 p3 p4
  if 1 < binning then
    let cut := sampling_image_size / 2 - image_size / 2
    { size := sampling_image_size - 2 * cut
      entry := fun i j => detector_response (i + cut) (j + cut) }
  else
    { size := sampling_image_size, entry := detector_response }

/-- `transmission_function(sliced_potential, voltage, dz)` (microscope.py lines
173-181).  The wavelength `lmbd` and the physical constants `me, el, c, h` come
from the external `physics` module and are inputs here; the returned array is the
elementwise `exp(1j * sigma_transfer * sliced_potential * dz)`. -/
def transmission_function (me el c h lmbd : ℝ) (sliced_potential : ℕ → ℕ → ℝ)
    (voltage dz : ℝ) (i j : ℕ) : ℂ :=
  let relative_mass := me + el * voltage / c ^ 2
  let sigma_transfer := 2 * Real.pi * relative_mass * el * lmbd / h ^ 2
  Complex.exp (Complex.I * ((sigma_transfer * sliced_potential i j * dz : ℝ) : ℂ))

/-- `create_ctf(shape, spacing, defocus, amplitude_contrast, voltage, Cs,
sigma_decay)` (microscope.py lines 200-238), with the wavelength
`physics.wavelength_eV2m(voltage)` as the input `lmbd`.  Builds the frequency grid
at Nyquist `1/(2*spacing)`, computes the phase
`chi = pi*lmbd*defocus*k^2 - 0.5*pi*Cs*lmbd^3*k^4`, the real CTF
`-sqrt(1-A^2)*sin(chi) - A*cos(chi)`, and multiplies in the Gaussian decay
`exp(-(k/(sigma_decay*nyquist))^2)` unless `sigma_decay <= 0`, in which case the
decay factor is 1. -/
def create_ctf (shape : List ℕ)
    (spacing defocus amplitude_contrast lmbd Cs sigma_decay : ℝ) : Option NdArray :=
  let nyquist := 1 / (2 * spacing)
  (fourier_array shape nyquist).map
    (NdArray.emap (fun k =>
      let chi := Real.pi * lmbd * defocus * k ^ 2 - 0.5 * Real.pi * Cs * lmbd ^ 3 * k ^ 4
      let ctf := -Real.sqrt (1 - amplitude_contrast ^ 2) * Real.sin chi
        - amplitude_contrast * Real.cos chi
      let decay := if sigma_decay ≤ 0 then 1
        else Real.exp (-(k / (sigma_decay * nyquist)) ^ 2)
      ctf * decay))

/-- The phase `pi/2 * (Cs*lmbd^3*k^4 - 2*Dz*lmbd*k^2)` appearing inside
`create_simple_complex_ctf` (microscope.py line 275). -/
def simple_ctf_chi (n : ℕ) (pixel_size Dz lmbd Cs : ℝ) (i j : ℕ) : ℝ :=
  Real.pi / 2 * (Cs * lmbd ^ 3 * mesh2 n (1 / (2 * pixel_size)) i j ^ 4
    - 2 * Dz * lmbd * mesh2 n (1 / (2 * pixel_size)) i j ^ 2)

/-- `create_simple_complex_ctf(image_shape, pixel_size, Dz, voltage, Cs,
sigma_decay)` (microscope.py lines 241-285): the phase-only complex CTF
`exp(-1j*pi/2*(Cs*lmbd^3*k^4 - 2*Dz*lmbd*k^2))` times the optional Gaussian decay.
The two shape assertions (length exactly 2, equal dimensions) yield `none`. -/
def create_simple_complex_ctf (image_shape : List ℕ)
    (pixel_size Dz lmbd Cs sigma_decay : ℝ) : Option (ℕ → ℕ → ℂ) :=
  match image_shape with
  | [n, m] =>
    if m = n then
      some (fun i j =>
        let nyquist := 1 / (2 * pixel_size)
        let k := mesh2 n nyquist i j
        let decay : ℝ := if sigma_decay ≤ 0 then 1
          else Real.exp (-(k / (sigma_decay * nyquist)) ^ 2)
        Complex.exp (-Complex.I * ((simple_ctf_chi n pixel_size Dz lmbd Cs i j : ℝ) : ℂ))
          * ((decay : ℝ) : ℂ))
    else none
  | _ => none

/-- One axis of the integer grid of `create_complex_ctf`:
`np.arange(-(image_size//2), abs(-image_size//2), 1)`, element number `m`,
i.e. `m - image_size//2` (floor division). -/
def xcoord (n m : ℕ) : ℝ := (m : ℝ) - ((n / 2 : ℕ) : ℝ)

/-- `xdot = xx*cos(angle*pi/180) - yy*sin(angle*pi/180)` of `create_complex_ctf`
(meshgrid `xy` indexing: `xx[i][j] = x[j]`, `yy[i][j] = x[i]`). -/
def astig_xdot (n : ℕ) (angle : ℝ) (i j : ℕ) : ℝ :=
  xcoord n j * Real.cos (angle * Real.pi / 180) - xcoord n i * Real.sin (angle * Real.pi / 180)

/-- `ydot = xx*sin(angle*pi/180) - yy*cos(angle*pi/180)` of `create_complex_ctf`. -/
def astig_ydot (n : ℕ) (angle : ℝ) (i j : ℕ) : ℝ :=
  xcoord n j * Real.sin (angle * Real.pi / 180) - xcoord n i * Real.cos (angle * Real.pi / 180)

/-- The anisotropic (astigmatic) frequency magnitude `q` of `create_complex_ctf`
(microscope.py line 344): axes stretched by `sqrt(dfsh/defocus)` and
`sqrt(defocus/dfln)`, scaled by `q_true = 1/(image_size*pixel_size)`. -/
def ext_q (n : ℕ) (pixel_size defocus astigmatism angle : ℝ) (i j : ℕ) : ℝ :=
  let q_true := 1 / (n * pixel_size)
  let dfsh := defocus + astigmatism
  let dfln := defocus - astigmatism
  let inratioqqs := Real.sqrt (dfsh / defocus)
  let inratioqlq := Real.sqrt (defocus / dfln)
  Real.sqrt ((astig_xdot n angle i j / inratioqlq) ^ 2
    + (astig_ydot n angle i j * inratioqqs) ^ 2) * q_true

/-- The symmetric (non-astigmatic) frequency magnitude `qsym` of
`create_complex_ctf` (microscope.py line 345). -/
def ext_qsym (n : ℕ) (pixel_size angle : ℝ) (i j : ℕ) : ℝ :=
  Real.sqrt (astig_xdot n angle i j ^ 2 + astig_ydot n angle i j ^ 2) * (1 / (n * pixel_size))

/-- The phase `0.5*pi*(Cs*lmbd^3*qsym^4 - 2*defocus*lmbd*q^2)` of
`create_complex_ctf` (microscope.py line 348). -/
def ext_chi (n : ℕ) (pixel_size defocus lmbd Cs astigmatism angle : ℝ) (i j : ℕ) : ℝ :=
  0.5 * Real.pi * (Cs * lmbd ^ 3 * ext_qsym n pixel_size angle i j ^ 4
    - 2 * defocus * lmbd * ext_q n pixel_size defocus astigmatism angle i j ^ 2)

/-- `create_complex_ctf(image_shape, pixel_size, defocus, voltage, Cs, Cc,
energy_spread, illumination_aperture, objective_diameter, focus_length,
astigmatism, astigmatism_angle)` (microscope.py lines 288-375).  The wavelength is
the input `lmbd`; `scipy.ndimage.gaussian_filter(..., sigma=3)` applied to the
aperture mask is the external input `blur`.  The result is
`(cos(chi) - 1j*sin(chi)) * (envelope * aperture)` with the chromatic and spatial
envelopes and the blurred hard-aperture cutoff at
`qmax = 2*pi*objective_diameter/(lmbd*focus_length)`. -/
def create_complex_ctf (image_shape : List ℕ)
    (pixel_size defocus voltage lmbd Cs Cc energy_spread illumination_aperture
      objective_diameter focus_length astigmatism angle : ℝ)
    (blur : (ℕ → ℕ → ℝ) → (ℕ → ℕ → ℝ)) : Option (ℕ → ℕ → ℂ) :=
  match image_shape with
  | [n, m] =>
    if m = n then
      some (
        let qmax := 2 * Real.pi * objective_diameter / (lmbd * focus_length)
        let aperture := blur (fun i j =>
          if qmax < ext_q n pixel_size defocus astigmatism angle i j then 0 else 1)
        fun i j =>
          let q := ext_q n pixel_size defocus astigmatism angle i j
          let chi := ext_chi n pixel_size defocus lmbd Cs astigmatism angle i j
          let complex_ctf : ℂ := ((Real.cos chi : ℝ) : ℂ)
            - Complex.I * ((Real.sin chi : ℝ) : ℂ)
          let hh := Cc * energy_spread / voltage
          let nominator := Real.pi * lmbd * q ^ 2 * hh
          let denominator := 4 * Real.sqrt (Real.log 2)
          let chromatic_envelope := Real.exp (-(nominator / denominator) ^ 2)
          let nums := (Real.pi * Cs * lmbd ^ 2 * q ^ 3 - Real.pi * defocus * q) ^ 2 *
            illumination_aperture ^ 2
          let spatial_envelope := Real.exp (-nums / Real.log 2)
          let envelope := chromatic_envelope * spatial_envelope
          complex_ctf * (((envelope * aperture i j : ℝ)) : ℂ))
    else none
  | _ => none

/-- Element `(i, j)` of an optional complex 2-d array. -/
def atC (a : Option (ℕ → ℕ → ℂ)) (i j : ℕ) : ℂ :=
  match a with
  | some f => f i j
  | none => 0

end

/-! ### Helper lemmas -/

lemma fourier_array_two (n : ℕ) (ny : ℝ) :
    fourier_array [n, n] ny = some (NdArray.dim2 n (mesh2 n ny)) := by
  simp [fourier_array]

lemma fourier_array_three (n : ℕ) (ny : ℝ) :
    fourier_array [n, n, n] ny = some (NdArray.dim3 n (mesh3 n ny)) := by
  simp [fourier_array]

lemma dval_reflect_mod_sq (n : ℕ) (ny : ℝ) (i : ℕ) (hi : i < n) :
    dval n ny (reflect_mod n i) ^ 2 = dval n ny i ^ 2 := by
  rcases Nat.eq_zero_or_pos i with rfl | hpos
  · simp [reflect_mod]
  · have hlt : n - i < n := by omega
    have hmod : reflect_mod n i = n - i := Nat.mod_eq_of_lt hlt
    have hcast : ((n - i : ℕ) : ℝ) = (n : ℝ) - (i : ℝ) := by
      push_cast [Nat.cast_sub hi.le]; ring
    have hne : (n : ℝ) ≠ 0 := by
      have : 0 < n := by omega
      exact_mod_cast this.ne'
    have hval : dval n ny (n - i) = -(dval n ny i) := by
      unfold dval
      rw [hcast]
      field_simp
      ring
    rw [hmod, hval]
    ring

lemma crop_size_aux (s m : ℕ) (hle : m ≤ s) (hpar : m % 2 = 0 → s % 2 = 0) :
    s - 2 * (s / 2 - m / 2) = if m % 2 = 1 ∧ s % 2 = 0 then m - 1 else m := by
  rcases Nat.mod_two_eq_zero_or_one m with hm2 | hm2 <;>
    rcases Nat.mod_two_eq_zero_or_one s with hs2 | hs2 <;>
    simp [hm2, hs2] <;> omega

/-- The element of `create_ctf` on a 2-d shape, as a scalar formula. -/
lemma create_ctf_at2 (n : ℕ) (spacing defocus A lmbd Cs sdec : ℝ) (i j : ℕ) :
    atIdx2 (create_ctf [n, n] spacing defocus A lmbd Cs sdec) i j =
      (-Real.sqrt (1 - A ^ 2) *
          Real.sin (Real.pi * lmbd * defocus * mesh2 n (1 / (2 * spacing)) i j ^ 2
            - 0.5 * Real.pi * Cs * lmbd ^ 3 * mesh2 n (1 / (2 * spacing)) i j ^ 4)
        - A * Real.cos (Real.pi * lmbd * defocus * mesh2 n (1 / (2 * spacing)) i j ^ 2
            - 0.5 * Real.pi * Cs * lmbd ^ 3 * mesh2 n (1 / (2 * spacing)) i j ^ 4)) *
      (if sdec ≤ 0 then 1
        else Real.exp (-(mesh2 n (1 / (2 * spacing)) i j / (sdec * (1 / (2 * spacing)))) ^ 2)) := by
  rw [create_ctf, fourier_array_two]
  simp [NdArray.emap, atIdx2]

/-- The element of `create_ctf` on a 3-d shape, as a scalar formula. -/
lemma create_ctf_at3 (n : ℕ) (spacing defocus A lmbd Cs sdec : ℝ) (i j l : ℕ) :
    atIdx3 (create_ctf [n, n, n] spacing defocus A lmbd Cs sdec) i j l =
      (-Real.sqrt (1 - A ^ 2) *
          Real.sin (Real.pi * lmbd * defocus * mesh3 n (1 / (2 * spacing)) i j l ^ 2
            - 0.5 * Real.pi * Cs * lmbd ^ 3 * mesh3 n (1 / (2 * spacing)) i j l ^ 4)
        - A * Real.cos (Real.pi * lmbd * defocus * mesh3 n (1 / (2 * spacing)) i j l ^ 2
            - 0.5 * Real.pi * Cs * lmbd ^ 3 * mesh3 n (1 / (2 * spacing)) i j l ^ 4)) *
      (if sdec ≤ 0 then 1
        else Real.exp (-(mesh3 n (1 / (2 * spacing)) i j l / (sdec * (1 / (2 * spacing)))) ^ 2)) := by
  rw [create_ctf, fourier_array_three]
  simp [NdArray.emap, atIdx3]

/-- Cauchy-Schwarz bound for the undamped real CTF value: when `A^2 ≤ 1`,
`|-sqrt(1-A^2)*sin x - A*cos x| ≤ 1`. -/
lemma ctf_amp_bound (A x : ℝ) (hA : A ^ 2 ≤ 1) :
    |(-Real.sqrt (1 - A ^ 2)) * Real.sin x - A * Real.cos x| ≤ 1 := by
  have hs := Real.sin_sq_add_cos_sq x
  have hsq : Real.sqrt (1 - A ^ 2) ^ 2 = 1 - A ^ 2 := Real.sq_sqrt (by linarith)
  rw [abs_le]
  constructor <;>
    nlinarith [sq_nonneg (Real.sqrt (1 - A ^ 2) * Real.cos x - A * Real.sin x),
      sq_nonneg (Real.sqrt (1 - A ^ 2) * Real.sin x + A * Real.cos x - 1),
      sq_nonneg (Real.sqrt (1 - A ^ 2) * Real.sin x + A * Real.cos x + 1)]

/-- A complex exponential with purely imaginary exponent has modulus 1. -/
lemma abs_exp_I_mul_ofReal (r : ℝ) :
    Complex.abs (Complex.exp (Complex.I * ((r : ℝ) : ℂ))) = 1 := by
  rw [Complex.abs_exp]
  simp [Complex.mul_re]

/-- A complex exponential with a negated purely imaginary exponent is
`cos - i sin` of the real phase. -/
lemma exp_neg_I_ofReal (x : ℝ) :
    Complex.exp (-Complex.I * ((x : ℝ) : ℂ)) =
      ((Real.cos x : ℝ) : ℂ) - Complex.I * ((Real.sin x : ℝ) : ℂ) := by
  have h1 : -Complex.I * ((x : ℝ) : ℂ) = (((-x : ℝ) : ℂ)) * Complex.I := by
    push_cast
    ring
  rw [h1, Complex.exp_mul_I, Complex.ofReal_neg, Complex.cos_neg, Complex.sin_neg,
    ← Complex.ofReal_cos, ← Complex.ofReal_sin]
  ring

/-- With `astigmatism_angle = 0` the rotated abscissa is just `x[j]`. -/
lemma astig_xdot_angle_zero (n i j : ℕ) : astig_xdot n 0 i j = xcoord n j := by
  simp [astig_xdot]

/-- With `astigmatism_angle = 0` the rotated ordinate is `-x[i]`. -/
lemma astig_ydot_angle_zero (n i j : ℕ) : astig_ydot n 0 i j = -(xcoord n i) := by
  simp [astig_ydot]

/-- For even sizes, the `fourier_array` axis and the integer axis of
`create_complex_ctf` sample identical frequencies:
`d[m] = (m - n/2) * q_true` with `q_true = 1/(n*pixel_size)`. -/
lemma dval_eq_xcoord_mul (n : ℕ) (px : ℝ) (hn : n % 2 = 0) (hp : 0 < n)
    (hpx : px ≠ 0) (m : ℕ) :
    dval n (1 / (2 * px)) m = xcoord n m * (1 / (n * px)) := by
  obtain ⟨t, rfl⟩ : ∃ t, n = 2 * t := ⟨n / 2, by omega⟩
  have ht : (t : ℝ) ≠ 0 := by
    have : 0 < t := by omega
    exact_mod_cast this.ne'
  have h2 : ((2 * t) / 2 : ℕ) = t := by omega
  unfold dval xcoord
  rw [h2]
  push_cast
  field_simp
  ring

/-- For even sizes the 2-d frequency grid of `fourier_array` coincides with the
symmetric magnitude `qsym` of `create_complex_ctf` at zero astigmatism angle. -/
lemma mesh2_eq_ext_qsym (n : ℕ) (px : ℝ) (i j : ℕ) (hn : n % 2 = 0) (hp : 0 < n)
    (hpx : 0 < px) :
    mesh2 n (1 / (2 * px)) i j = ext_qsym n px 0 i j := by
  have hq : (0 : ℝ) < 1 / (n * px) := by
    have hn0 : (0 : ℝ) < (n : ℝ) := by exact_mod_cast hp
    positivity
  unfold mesh2 ext_qsym
  rw [astig_xdot_angle_zero, astig_ydot_angle_zero, neg_sq,
    dval_eq_xcoord_mul n px hn hp hpx.ne' j, dval_eq_xcoord_mul n px hn hp hpx.ne' i]
  rw [show (xcoord n j * (1 / (n * px))) ^ 2 + (xcoord n i * (1 / (n * px))) ^ 2
      = (xcoord n j ^ 2 + xcoord n i ^ 2) * (1 / (n * px)) ^ 2 from by ring]
  rw [Real.sqrt_mul (by positivity) ((1 / (n * px)) ^ 2), Real.sqrt_sq hq.le]

/-- With `astigmatism = 0` (and nonzero defocus) both stretch ratios are 1, so the
anisotropic magnitude `q` collapses to the symmetric magnitude `qsym`. -/
lemma ext_q_zero_astig (n : ℕ) (px defocus : ℝ) (i j : ℕ) (hd : defocus ≠ 0) :
    ext_q n px defocus 0 0 i j = ext_qsym n px 0 i j := by
  unfold ext_q ext_qsym
  simp only [add_zero, sub_zero, div_self hd, Real.sqrt_one, div_one, mul_one]

/-- The centre sample of the even frequency axis is exactly zero. -/
lemma dval_center_128 (ny : ℝ) : dval 128 ny 64 = 0 := by
  unfold dval
  push_cast
  ring

/-! ### C1: end-to-end `create_ctf` scenario -/

/-- C1: `create_ctf` at shape `(128,128)`, `spacing = 1e-10`, `defocus = 2e-6`,
`amplitude_contrast = 0.1`, `Cs = 2.7e-3`, `sigma_decay = 0.4` (any wavelength
`lmbd`, which `physics.wavelength_eV2m(300e3)` supplies) returns a real-valued
`(128,128)` array whose entries all have absolute value at most 1 and whose value
at the zero-frequency grid point `(64, 64)` (where `k = 0`) is
`-amplitude_contrast = -0.1`. -/
theorem create_ctf_end_to_end (lmbd : ℝ) :
    (create_ctf [128, 128] 1e-10 2e-6 0.1 lmbd 2.7e-3 0.4).map NdArray.shape
        = some [128, 128] ∧
    (∀ i j : ℕ, |atIdx2 (create_ctf [128, 128] 1e-10 2e-6 0.1 lmbd 2.7e-3 0.4) i j| ≤ 1) ∧
    atIdx2 (create_ctf [128, 128] 1e-10 2e-6 0.1 lmbd 2.7e-3 0.4) 64 64 = -0.1 := by
  refine ⟨?_, ?_, ?_⟩
  · rw [create_ctf, fourier_array_two]
    simp [NdArray.emap, NdArray.shape]
  · intro i j
    rw [create_ctf_at2]
    rw [if_neg (by norm_num)]
    rw [abs_mul]
    have hb := ctf_amp_bound 0.1
      (Real.pi * lmbd * 2e-6 * mesh2 128 (1 / (2 * 1e-10)) i j ^ 2
        - 0.5 * Real.pi * 2.7e-3 * lmbd ^ 3 * mesh2 128 (1 / (2 * 1e-10)) i j ^ 4)
      (by norm_num)
    have hdecay : |Real.exp (-(mesh2 128 (1 / (2 * 1e-10)) i j /
        ((0.4 : ℝ) * (1 / (2 * 1e-10)))) ^ 2)| ≤ 1 := by
      rw [abs_of_pos (Real.exp_pos _)]
      exact Real.exp_le_one_iff.mpr (neg_nonpos.mpr (sq_nonneg _))
    calc |(-Real.sqrt (1 - (0.1 : ℝ) ^ 2) * Real.sin _ - 0.1 * Real.cos _)| * |Real.exp _|
        ≤ 1 * 1 := by
          apply mul_le_mul _ hdecay (abs_nonneg _) zero_le_one
          exact hb
      _ = 1 := by norm_num
  · rw [create_ctf_at2]
    have hk : mesh2 128 (1 / (2 * 1e-10)) 64 64 = 0 := by
      simp [mesh2, dval_center_128]
    rw [hk]
    rw [if_neg (by norm_num)]
    norm_num

/-! ### C7: `create_ctf` with `sigma_decay <= 0` is undamped -/

/-- C7: for every (square 2-d or cubic 3-d) shape, spacing, defocus, amplitude
contrast `A`, wavelength and `Cs`, `create_ctf` with `sigma_decay ≤ 0` applies no
envelope: every element equals exactly
`-sqrt(1-A^2)*sin(chi) - A*cos(chi)` with
`chi = pi*lmbd*defocus*k^2 - 0.5*pi*Cs*lmbd^3*k^4` at that element's frequency
magnitude `k`. -/
theorem create_ctf_no_decay (n : ℕ) (spacing defocus A lmbd Cs sdec : ℝ)
    (hs : sdec ≤ 0) :
    (∀ i j : ℕ, atIdx2 (create_ctf [n, n] spacing defocus A lmbd Cs sdec) i j =
      -Real.sqrt (1 - A ^ 2) *
          Real.sin (Real.pi * lmbd * defocus * mesh2 n (1 / (2 * spacing)) i j ^ 2
            - 0.5 * Real.pi * Cs * lmbd ^ 3 * mesh2 n (1 / (2 * spacing)) i j ^ 4)
        - A * Real.cos (Real.pi * lmbd * defocus * mesh2 n (1 / (2 * spacing)) i j ^ 2
            - 0.5 * Real.pi * Cs * lmbd ^ 3 * mesh2 n (1 / (2 * spacing)) i j ^ 4)) ∧
    (∀ i j l : ℕ, atIdx3 (create_ctf [n, n, n] spacing defocus A lmbd Cs sdec) i j l =
      -Real.sqrt (1 - A ^ 2) *
          Real.sin (Real.pi * lmbd * defocus * mesh3 n (1 / (2 * spacing)) i j l ^ 2
            - 0.5 * Real.pi * Cs * lmbd ^ 3 * mesh3 n (1 / (2 * spacing)) i j l ^ 4)
        - A * Real.cos (Real.pi * lmbd * defocus * mesh3 n (1 / (2 * spacing)) i j l ^ 2
            - 0.5 * Real.pi * Cs * lmbd ^ 3 * mesh3 n (1 / (2 * spacing)) i j l ^ 4)) := by
  constructor
  · intro i j
    rw [create_ctf_at2, if_pos hs, mul_one]
  · intro i j l
    rw [create_ctf_at3, if_pos hs, mul_one]

/-- Witness for C7 at `n = 2`, unit optical parameters, `sigma_decay = 0`,
element `(0, 0)`. -/
theorem create_ctf_no_decay_witness :
    (0 : ℝ) ≤ 0 ∧
    atIdx2 (create_ctf [2, 2] 1 1 0 1 1 0) 0 0 =
      -Real.sqrt (1 - (0 : ℝ) ^ 2) *
          Real.sin (Real.pi * 1 * 1 * mesh2 2 (1 / (2 * 1)) 0 0 ^ 2
            - 0.5 * Real.pi * 1 * 1 ^ 3 * mesh2 2 (1 / (2 * 1)) 0 0 ^ 4)
        - 0 * Real.cos (Real.pi * 1 * 1 * mesh2 2 (1 / (2 * 1)) 0 0 ^ 2
            - 0.5 * Real.pi * 1 * 1 ^ 3 * mesh2 2 (1 / (2 * 1)) 0 0 ^ 4) :=
  ⟨le_refl 0, (create_ctf_no_decay 2 1 1 0 1 1 0 (le_refl 0)).1 0 0⟩

/-! ### C9: the transmission function is a pure phase factor -/

/-- C9: for every choice of physical constants and wavelength, every real sliced
potential, voltage and slice thickness, every element of the array
`transmission_function` returns has complex modulus exactly 1: it is the pure
phase factor `exp(i * sigma_transfer * V * dz)` with a real exponent. -/
theorem transmission_function_unit_modulus (me el c h lmbd : ℝ)
    (sliced_potential : ℕ → ℕ → ℝ) (voltage dz : ℝ) (i j : ℕ) :
    Complex.abs (transmission_function me el c h lmbd sliced_potential voltage dz i j)
      = 1 := by
  rw [transmission_function]
  exact abs_exp_I_mul_ofReal _

/-! ### C4: grid symmetry -/

/-- C4 (counterexample): with the reflection taken literally as the mirror about the
centre `(n-1)/2` of each axis, the grid returned by `fourier_array` for shape
`(2, 2)` and Nyquist 1 is not symmetric: element `(0, 0)` holds the unpaired
`-nyquist` sample (magnitude `√2`), its mirror `(1, 1)` holds frequency 0. -/
theorem fourier_array_not_center_symmetric :
    atIdx2 (fourier_array [2, 2] 1) 0 0 ≠
      atIdx2 (fourier_array [2, 2] 1) (reflect_center 2 0) (reflect_center 2 0) := by
  rw [fourier_array_two]
  have h0 : dval 2 (1 : ℝ) 0 = -1 := by norm_num [dval]
  have h1 : dval 2 (1 : ℝ) 1 = 0 := by norm_num [dval]
  have hA : atIdx2 (some (NdArray.dim2 2 (mesh2 2 1))) 0 0 = Real.sqrt 2 := by
    simp [atIdx2, mesh2, h0]
    norm_num
  have hB : atIdx2 (some (NdArray.dim2 2 (mesh2 2 1)))
      (reflect_center 2 0) (reflect_center 2 0) = 0 := by
    simp [atIdx2, reflect_center, mesh2, h1]
  rw [hA, hB]
  have : (0 : ℝ) < Real.sqrt 2 := Real.sqrt_pos.mpr (by norm_num)
  exact this.ne'

/-- C4 (amended): the grid returned by `fourier_array` is symmetric under the
reflection about the zero-frequency index with wrap-around,
`reflect_mod n i = (n - i) % n`, on every in-range index vector, in both the 2-d
and the 3-d case.  (The mirror about the array centre `(n-1)/2` fails, because the
`-nyquist` sample at index 0 has no positive counterpart on the grid.) -/
theorem fourier_array_reflect_mod_symmetric (n : ℕ) (ny : ℝ) (i j l : ℕ)
    (hi : i < n) (hj : j < n) (hl : l < n) :
    atIdx2 (fourier_array [n, n] ny) i j =
      atIdx2 (fourier_array [n, n] ny) (reflect_mod n i) (reflect_mod n j) ∧
    atIdx3 (fourier_array [n, n, n] ny) i j l =
      atIdx3 (fourier_array [n, n, n] ny) (reflect_mod n i) (reflect_mod n j)
        (reflect_mod n l) := by
  rw [fourier_array_two, fourier_array_three]
  constructor
  · simp only [atIdx2, mesh2]
    rw [dval_reflect_mod_sq n ny i hi, dval_reflect_mod_sq n ny j hj]
  · simp only [atIdx3, mesh3]
    rw [dval_reflect_mod_sq n ny i hi, dval_reflect_mod_sq n ny j hj,
      dval_reflect_mod_sq n ny l hl]

/-- Witness for C4 (amended) at `n = 2`, `ny = 1`, index vector `(1, 1, 1)`. -/
theorem fourier_array_reflect_mod_symmetric_witness :
    (1 < 2 ∧ 1 < 2 ∧ 1 < 2) ∧
    (atIdx2 (fourier_array [2, 2] 1) 1 1 =
      atIdx2 (fourier_array [2, 2] 1) (reflect_mod 2 1) (reflect_mod 2 1) ∧
    atIdx3 (fourier_array [2, 2, 2] 1) 1 1 1 =
      atIdx3 (fourier_array [2, 2, 2] 1) (reflect_mod 2 1) (reflect_mod 2 1)
        (reflect_mod 2 1)) :=
  ⟨by omega,
    fourier_array_reflect_mod_symmetric 2 1 1 1 1 (by omega) (by omega) (by omega)⟩

/-! ### C8: `fourier_array` input validation -/

/-- C8: `fourier_array` rejects (assertion failure, embedded as `none`, with no
internal recovery) every shape with more than 3 dimensions, fewer than 1
dimension, or dimensions that are not all equal. -/
theorem fourier_array_rejects_invalid (shape : List ℕ) (ny : ℝ)
    (hbad : 3 < shape.length ∨ shape.length < 1 ∨
      ∃ a ∈ shape, ∃ b ∈ shape, a ≠ b) :
    fourier_array shape ny = none := by
  match shape with
  | [] => simp [fourier_array]
  | size :: rest =>
    simp only [fourier_array]
    rw [if_neg]
    rintro ⟨hall, hlen⟩
    rcases hbad with h3 | h0 | ⟨a, ha, b, hb, hab⟩
    · simp only [List.length_cons] at h3
      omega
    · simp at h0
    · have hval : ∀ x ∈ size :: rest, x = size := by
        intro x hx
        rcases List.mem_cons.mp hx with rfl | hx'
        · rfl
        · exact hall x hx'
      exact hab ((hval a ha).trans (hval b hb).symm)

/-- Witness for C8 at the concrete invalid shape `[1, 2]` (unequal dimensions). -/
theorem fourier_array_rejects_invalid_witness :
    (3 < ([1, 2] : List ℕ).length ∨ ([1, 2] : List ℕ).length < 1 ∨
      ∃ a ∈ ([1, 2] : List ℕ), ∃ b ∈ ([1, 2] : List ℕ), a ≠ b) ∧
    fourier_array [1, 2] 1 = none :=
  ⟨by decide, fourier_array_rejects_invalid [1, 2] 1 (by decide)⟩

/-! ### C10: length-1 shapes take the 3-d branch -/

/-- C10: a 1-tuple shape `(n,)` passes both validity assertions of `fourier_array`
(its single dimension set has one element and its length is at most 3), and since
only `len(shape) == 2` selects the 2-d meshgrid, it is handed to the 3-d
`meshgrid(d, d, d)` branch: the call returns a 3-dimensional array of shape
`(n, n, n)` rather than a 1-dimensional frequency axis. -/
theorem fourier_array_length_one_gives_3d (n : ℕ) (ny : ℝ) (hny : 0 < ny) :
    fourier_array [n] ny = some (NdArray.dim3 n (mesh3 n ny)) ∧
    (NdArray.dim3 n (mesh3 n ny)).shape = [n, n, n] := by
  constructor
  · simp [fourier_array]
  · rfl

/-- Witness for C10 at `n = 4`, `ny = 1`. -/
theorem fourier_array_length_one_gives_3d_witness :
    (0 : ℝ) < 1 ∧
    (fourier_array [4] 1 = some (NdArray.dim3 4 (mesh3 4 1)) ∧
      (NdArray.dim3 4 (mesh3 4 1)).shape = [4, 4, 4]) :=
  ⟨by norm_num, fourier_array_length_one_gives_3d 4 1 (by norm_num)⟩

/-! ### C2: the sinc-squared singularity -/

/-- C2: the source's `sinc_square` does NOT guard the removable singularity.  At
`x = p2` (here `x = p2 = 1`, `p1 = p3 = 1`, `p4 = 0`) the division is `0/0`
(`nan` in NumPy; `0` under total real division), so the sample evaluates to `p4`
instead of the limit value `p1 * 1 + p4 = p1 + p4`. -/
theorem sinc_square_singularity_unguarded :
    sinc_square 1 1 1 1 0 = 0 ∧ sinc_square 1 1 1 1 0 ≠ 1 + 0 := by
  have h : sinc_square 1 1 1 1 0 = 0 := by
    norm_num [sinc_square]
  exact ⟨h, by rw [h]; norm_num⟩

/-! ### C6: what `fit_sinc_square` returns -/

/-- C6 (counterexample): at `popt = (1,1,1,1)`, `xdata = [2]`, `ydata = [4]` the
residual sum of squares of the fit is `9`, yet no component of the value
`fit_sinc_square` returns equals `9` — the RSS is only printed, not part of the
result. -/
theorem fit_sinc_square_rss_not_in_result :
    (fit_sinc_square (1, 1, 1, 1) [2] [4]).printed_chi_square = 9 ∧
    (fit_sinc_square (1, 1, 1, 1) [2] [4]).ret.1 ≠ 9 ∧
    (fit_sinc_square (1, 1, 1, 1) [2] [4]).ret.2.1 ≠ 9 ∧
    (fit_sinc_square (1, 1, 1, 1) [2] [4]).ret.2.2.1 ≠ 9 ∧
    (fit_sinc_square (1, 1, 1, 1) [2] [4]).ret.2.2.2 ≠ 9 := by
  have hs : sinc_square 2 1 1 1 1 = 1 := by
    have harg : Real.pi * ((2 : ℝ) - 1) * 1 = Real.pi := by ring
    rw [sinc_square, harg]
    simp [Real.sin_pi]
  refine ⟨?_, ?_, ?_, ?_, ?_⟩ <;>
    simp [fit_sinc_square, hs] <;> norm_num

/-- C6 (amended): `fit_sinc_square` returns exactly the four fitted parameters; the
residual sum of squares is computed and emitted on the print channel (the
chi-square diagnostic message), not as part of the returned value. -/
theorem fit_sinc_square_returns_params_prints_rss (popt : ℝ × ℝ × ℝ × ℝ)
    (xdata ydata : List ℝ) :
    (fit_sinc_square popt xdata ydata).ret = popt ∧
    (fit_sinc_square popt xdata ydata).printed_chi_square =
      residual_sum_of_squares popt xdata ydata := by
  constructor
  · simp [fit_sinc_square]
  · simp only [fit_sinc_square, residual_sum_of_squares]
    induction xdata generalizing ydata with
    | nil => cases ydata <;> simp
    | cons x xs ih =>
      cases ydata with
      | nil => simp
      | cons y ys => simp [ih]

/-! ### C3: detector response shape -/

/-- C3 (counterexample): for `image_size = 3` and `binning = 2` the oversampled
side is 6 and `cut = 6//2 - 3//2 = 2`, so the cropped response has shape
`(2, 2)`, not `(3, 3)` as the claim states for every positive size. -/
theorem create_detector_response_shape_cx :
    (create_detector_response 1 1 1 1 3 2).size ≠ 3 := by
  norm_num [create_detector_response]

/-- C3 (amended): for `binning > 1` the response is the fitted model on the
oversampled `image_size * binning` grid cropped by
`cut = (image_size*binning)//2 - image_size//2` pixels from each edge; the
resulting shape is `(image_size, image_size)` exactly when `image_size` is even or
`binning` is odd, and `(image_size - 1, image_size - 1)` when `image_size` is odd
and `binning` is even. -/
theorem create_detector_response_shape (p1 p2 p3 p4 : ℝ) (m b : ℕ)
    (hm : 1 ≤ m) (hb : 2 ≤ b) :
    (create_detector_response p1 p2 p3 p4 m b).size =
      if m % 2 = 1 ∧ b % 2 = 0 then m - 1 else m := by
  have hgt : 1 < b := hb
  simp only [create_detector_response, if_pos hgt]
  have hle : m ≤ m * b := Nat.le_mul_of_pos_right m (by omega)
  have hpar : m % 2 = 0 → m * b % 2 = 0 := by
    intro hzero
    rw [Nat.mul_mod, hzero]
    simp
  have hcond : (m % 2 = 1 ∧ m * b % 2 = 0) ↔ (m % 2 = 1 ∧ b % 2 = 0) := by
    constructor
    · rintro ⟨h1, h2⟩
      refine ⟨h1, ?_⟩
      rw [Nat.mul_mod, h1] at h2
      omega
    · rintro ⟨h1, h2⟩
      exact ⟨h1, by rw [Nat.mul_mod, h1, h2]⟩
  rw [crop_size_aux (m * b) m hle hpar, if_congr hcond rfl rfl]

/-- Witness for C3 (amended) at `image_size = 4`, `binning = 2`. -/
theorem create_detector_response_shape_witness :
    (1 ≤ 4 ∧ 2 ≤ 2) ∧
    (create_detector_response 1 1 1 1 4 2).size =
      if 4 % 2 = 1 ∧ 2 % 2 = 0 then 4 - 1 else 4 :=
  ⟨by omega, create_detector_response_shape 1 1 1 1 4 2 (by omega) (by omega)⟩

/-! ### C5: extended vs. simple complex CTF -/

/-- C5 (counterexample): with `astigmatism = 0` and `astigmatism_angle = 0` the two
functions do NOT return the same array, because they apply different envelopes:
`create_simple_complex_ctf` multiplies in the Gaussian decay
`exp(-(k/(sigma_decay*nyquist))^2)` while `create_complex_ctf` multiplies in
chromatic/spatial envelopes and the aperture cutoff.  Concretely, at shape
`(2,2)`, `pixel_size = 1/2`, `defocus = Dz = 1`, `lmbd = 1`, `Cs = 0`, with
`Cc = 0` and `illumination_aperture = 0` (both envelopes 1), a wide-open aperture
(`objective_diameter = focus_length = 1`) and the identity for the Gaussian blur
(its normalized kernel leaves the constant all-ones mask unchanged), element
`(0,0)` of the extended CTF is `1`, while the simple CTF gives
`exp(-25/2) ≠ 1` (default `sigma_decay = 2/5`): the phases agree (`chi = -2π` on
both sides) but the envelopes do not. -/
theorem create_complex_ctf_ne_simple_cx :
    atC (create_complex_ctf [2, 2] (1 / 2) 1 1 1 0 0 (7 / 10) 0 1 1 0 0 (fun a => a)) 0 0 ≠
      atC (create_simple_complex_ctf [2, 2] (1 / 2) 1 1 0 (2 / 5)) 0 0 := by
  have hxc0 : xcoord 2 0 = -1 := by
    norm_num [xcoord]
  have hxd : astig_xdot 2 0 0 0 = -1 := by
    rw [astig_xdot_angle_zero, hxc0]
  have hyd : astig_ydot 2 0 0 0 = 1 := by
    rw [astig_ydot_angle_zero, hxc0]
    norm_num
  have hq : ext_q 2 (1 / 2) 1 0 0 0 0 = Real.sqrt 2 := by
    simp only [ext_q, hxd, hyd]
    norm_num [Real.sqrt_one]
  have hqsym : ext_qsym 2 (1 / 2) 0 0 0 = Real.sqrt 2 := by
    simp only [ext_qsym, hxd, hyd]
    norm_num
  have hchi : ext_chi 2 (1 / 2) 1 1 0 0 0 0 0 = -(2 * Real.pi) := by
    simp only [ext_chi]
    rw [hq, hqsym, Real.sq_sqrt (by norm_num : (0 : ℝ) ≤ 2)]
    ring
  have hqmax : ¬ (2 * Real.pi * 1 / (1 * 1) < ext_q 2 (1 / 2) 1 0 0 0 0) := by
    rw [hq]
    rw [show (2 * Real.pi * 1 / (1 * 1) : ℝ) = 2 * Real.pi from by ring]
    exact not_lt.mpr
      (le_of_lt ((Real.sqrt_lt' (by positivity)).mpr (by nlinarith [Real.pi_gt_three])))
  have hext : atC (create_complex_ctf [2, 2] (1 / 2) 1 1 1 0 0 (7 / 10) 0 1 1 0 0
      (fun a => a)) 0 0 = 1 := by
    simp only [create_complex_ctf, atC, eq_self_iff_true, if_true]
    rw [if_neg hqmax, hchi]
    rw [Real.cos_neg, Real.sin_neg, Real.cos_two_pi, Real.sin_two_pi]
    norm_num [Real.exp_zero]
  have hk : mesh2 2 (1 / (2 * (1 / 2))) 0 0 = Real.sqrt 2 := by
    have hd0 : dval 2 (1 / (2 * (1 / 2))) 0 = -1 := by
      norm_num [dval]
    simp only [mesh2, hd0]
    norm_num
  have hchis : simple_ctf_chi 2 (1 / 2) 1 1 0 0 0 = -(2 * Real.pi) := by
    simp only [simple_ctf_chi]
    rw [hk, Real.sq_sqrt (by norm_num : (0 : ℝ) ≤ 2)]
    ring
  have hsimple : atC (create_simple_complex_ctf [2, 2] (1 / 2) 1 1 0 (2 / 5)) 0 0 =
      ((Real.exp (-(25 / 2)) : ℝ) : ℂ) := by
    simp only [create_simple_complex_ctf, atC, eq_self_iff_true, if_true]
    rw [if_neg (by norm_num : ¬ ((2 / 5 : ℝ) ≤ 0)), hchis, hk]
    rw [exp_neg_I_ofReal, Real.cos_neg, Real.sin_neg, Real.cos_two_pi, Real.sin_two_pi]
    have harg : (Real.sqrt 2 / ((2 / 5 : ℝ) * (1 / (2 * (1 / 2))))) ^ 2 = 25 / 2 := by
      rw [div_pow, Real.sq_sqrt (by norm_num : (0 : ℝ) ≤ 2)]
      norm_num
    rw [harg]
    push_cast
    ring
  rw [hext, hsimple]
  intro heq
  have hlt : Real.exp (-(25 / 2)) < 1 := Real.exp_lt_one_iff.mpr (by norm_num)
  have : Real.exp (-(25 / 2)) = 1 := by exact_mod_cast heq.symm
  linarith

/-- C5 (amended): with `astigmatism = 0` and `astigmatism_angle = 0`, for every
even 2-d square shape, positive pixel size and nonzero defocus, the extended CTF
reduces to the simple complex CTF formula with the same `chi`: on every in-range
grid point the phase `ext_chi` equals `simple_ctf_chi` at `Dz = defocus` on the
identical frequency sample, and hence the phase factor `cos(chi) - i*sin(chi)` of
`create_complex_ctf` equals the phase factor `exp(-i*chi)` of
`create_simple_complex_ctf`.  (The full arrays still differ in general: the two
functions multiply different envelopes into this common phase term, see the
counterexample; and for odd sizes the two sample frequencies on grids shifted by
half a pixel.) -/
theorem create_complex_ctf_zero_astig_phase_matches_simple (n : ℕ)
    (px defocus lmbd Cs : ℝ) (i j : ℕ) (hn : n % 2 = 0) (hpx : 0 < px)
    (hd : defocus ≠ 0) (hi : i < n) (hj : j < n) :
    ext_chi n px defocus lmbd Cs 0 0 i j = simple_ctf_chi n px defocus lmbd Cs i j ∧
    ((Real.cos (ext_chi n px defocus lmbd Cs 0 0 i j) : ℝ) : ℂ)
        - Complex.I * ((Real.sin (ext_chi n px defocus lmbd Cs 0 0 i j) : ℝ) : ℂ)
      = Complex.exp (-Complex.I * ((simple_ctf_chi n px defocus lmbd Cs i j : ℝ) : ℂ)) := by
  have hp : 0 < n := by omega
  have hchi : ext_chi n px defocus lmbd Cs 0 0 i j
      = simple_ctf_chi n px defocus lmbd Cs i j := by
    unfold ext_chi simple_ctf_chi
    rw [ext_q_zero_astig n px defocus i j hd, ← mesh2_eq_ext_qsym n px i j hn hp hpx]
    ring
  refine ⟨hchi, ?_⟩
  rw [hchi, exp_neg_I_ofReal]

/-- Witness for C5 (amended) at `n = 2`, `px = 1`, `defocus = 1`, `lmbd = 1`,
`Cs = 1`, grid point `(0, 0)`. -/
theorem create_complex_ctf_zero_astig_phase_matches_simple_witness :
    (2 % 2 = 0 ∧ (0 : ℝ) < 1 ∧ (1 : ℝ) ≠ 0 ∧ 0 < 2 ∧ 0 < 2) ∧
    (ext_chi 2 1 1 1 1 0 0 0 0 = simple_ctf_chi 2 1 1 1 1 0 0 ∧
    ((Real.cos (ext_chi 2 1 1 1 1 0 0 0 0) : ℝ) : ℂ)
        - Complex.I * ((Real.sin (ext_chi 2 1 1 1 1 0 0 0 0) : ℝ) : ℂ)
      = Complex.exp (-Complex.I * ((simple_ctf_chi 2 1 1 1 1 0 0 : ℝ) : ℂ))) :=
  ⟨⟨rfl, by norm_num, by norm_num, by omega, by omega⟩,
    create_complex_ctf_zero_astig_phase_matches_simple 2 1 1 1 1 0 0 rfl
      (by norm_num) (by norm_num) (by omega) (by omega)⟩
